import Mathlib

/-!
Verification development for the University-DataBase crawler
(`url_parser.py`).  The Python source is shallowly embedded: pure
fragments become Lean functions, the SQLite tables touched by a claim
become explicit list/association-list states, `random.random()` draws
become rational-number parameters, and network responses become data
passed in.  Each claim of the specification is settled by one theorem
about these definitions.
-/

/-! ## Text utilities (`clean_text`, Python `str.strip`)

`clean_text(t)` in the source is `re.sub(r"\s+", " ", t.strip())`.
Whitespace is modelled by the ASCII whitespace characters that Python's
`\s` and no-argument `strip` recognise (the portal pages contain no
exotic Unicode spaces).
-/

def pyIsSpace (c : Char) : Bool :=
  c = ' ' || c = '\t' || c = '\n' || c = '\r' || c = '\x0b' || c = '\x0c'

/-- Remove leading and trailing characters satisfying `p`
(Python `str.strip(chars)` with the character class `p`). -/
def stripEnds (p : Char → Bool) (l : List Char) : List Char :=
  ((l.dropWhile p).reverse.dropWhile p).reverse

/-- Replace every maximal run of whitespace by a single space
(the `re.sub(r"\s+", " ", ·)` step of `clean_text`); the flag records
whether the previous character belonged to a whitespace run. -/
def squeezeWsAux : Bool → List Char → List Char
  | _, [] => []
  | inRun, c :: rest =>
    if pyIsSpace c then
      if inRun then squeezeWsAux true rest else ' ' :: squeezeWsAux true rest
    else c :: squeezeWsAux false rest

def squeezeWs (l : List Char) : List Char :=
  squeezeWsAux false l

/-- `clean_text` from `url_parser.py`: strip, then collapse whitespace runs. -/
def cleanText (s : String) : String :=
  ⟨squeezeWs (stripEnds pyIsSpace s.data)⟩

/-! ## Association-list model of Python dicts and of the visible DB state

`dict(cursor.fetchall())` and dict comprehensions are modelled as
association lists with last-wins insertion.  `insertOverwrite` is a
Python dict assignment (update the value in place if the key exists,
else append); `lookupA` is dict lookup / `in`.
-/

def lookupA : List (String × String) → String → Option String
  | [], _ => none
  | (k, v) :: rest, key => if k = key then some v else lookupA rest key

def insertOverwrite : List (String × String) → String → String → List (String × String)
  | [], k, v => [(k, v)]
  | (k0, v0) :: rest, k, v =>
    if k0 = k then (k0, v) :: rest else (k0, v0) :: insertOverwrite rest k v

/-- Fold a batch of `(key, value)` pairs into a dict, last wins. -/
def applyUpserts (db : List (String × String)) (news : List (String × String)) :
    List (String × String) :=
  news.foldl (fun m p => insertOverwrite m p.1 p.2) db

/-! ## C1: Table Normalizer row alignment (`parse_program_page`, `is_icon_td`)

A `<td>` cell is modelled by the data `is_icon_td` and the row loop
inspect: its `get_text(" ", strip=True)` string, its number of `<img>`
descendants, and the `get_text()` of each `<a>` descendant.
-/

structure Td where
  text : String
  imgs : Nat
  linkTexts : List String
  deriving Repr, DecidableEq

/-- `is_icon_td(td)` from `url_parser.py`: a cell whose visible text is
empty and which holds an image but no link with visible text. -/
def is_icon_td (td : Td) : Bool :=
  if cleanText td.text ≠ "" then false
  else if td.imgs ≠ 0 && !(td.linkTexts.any fun t => cleanText t ≠ "") then true
  else false

/-- The `while headers and len(vals) > len(headers) and tds_copy and
is_icon_td(tds_copy[0])` loop of `parse_program_page`: pop the leading
cell (from both the cell list and the value list) while the row is
longer than the header list and leads with an icon-only cell. -/
def dropIconCells (nh : Nat) : List Td → List String → List String
  | [], vals => vals
  | td :: tds, vals =>
    if 0 < nh && nh < vals.length && is_icon_td td then
      dropIconCells nh tds vals.tail
    else vals

/-- The pad/truncate step of `parse_program_page`: extend with empty
strings up to the header count, then cut down to the header count. -/
def padTruncate (n : Nat) (vals : List String) : List String :=
  let padded := if vals.length < n then vals ++ List.replicate (n - vals.length) "" else vals
  if n < padded.length then padded.take n else padded

/-- The aligned value list for one data row of `parse_program_page`'s
header branch: cell texts cleaned, leading icon cells dropped while the
row is longer than the headers, then padded/truncated to the header
count. -/
def alignedVals (headers : List String) (tds : List Td) : List String :=
  padTruncate headers.length
    (dropIconCells headers.length tds (tds.map fun td => cleanText td.text))

/-- One data row as stored by `parse_program_page`'s header branch:
`rows.append(dict(zip(headers, vals)))` — the zipped pairs are folded
into a Python dict (`insertOverwrite`, so duplicate header texts
collapse onto a single entry with the later value winning); when no
headers were found the branch appends nothing (`none`). -/
def rowFields (headers : List String) (tds : List Td) : Option (List (String × String)) :=
  if headers.isEmpty then none
  else some ((headers.zip (alignedVals headers tds)).foldl
    (fun m p => insertOverwrite m p.1 p.2) [])

example : cleanText "  a   b " = "a b" := by decide

example :
    rowFields ["Семестр", "Отчетность"]
      [⟨" ", 1, []⟩, ⟨"3", 0, []⟩, ⟨"Экзамен", 0, []⟩, ⟨"extra", 0, []⟩] =
      some [("Семестр", "3"), ("Отчетность", "Экзамен")] := by decide

example :
    rowFields ["A", "B", "C"] [⟨"x", 0, []⟩] = some [("A", "x"), ("B", ""), ("C", "")] := by
  decide

/-! ## C2: idempotent upsert filters

The institutes/departments/programs stages all compute
`new_entries = [(name, url) ... if name not in existing or existing[name] != url]`
against `existing = dict(cursor.fetchall())` and then run
`INSERT OR REPLACE`.  The table is abstracted by the very name→url dict
the code rebuilds from `fetchall` on the next run: an insert makes the
dict map that name to the new url (`insertOverwrite`).
-/

def newEntries (links existing : List (String × String)) : List (String × String) :=
  links.filter fun p =>
    match lookupA existing p.1 with
    | none => true
    | some u => decide (u ≠ p.2)

/-- One parsed subject as produced by `subject_multi_process` right
before the `(sub_name, semester) not in existing_subjects` check. -/
structure NewSubject where
  name : String
  semester : Nat
  eval_method : String
  url : String
  deriving Repr, DecidableEq

def subjectKey (s : NewSubject) : String × Nat :=
  (s.name, s.semester)

/-- The dedup filter of `subject_multi_process`: keep a parsed subject
only when its `(name, semester)` pair is not already persisted. -/
def newSubjects (parsed : List NewSubject) (existing : List (String × Nat)) :
    List NewSubject :=
  parsed.filter fun s => decide (subjectKey s ∉ existing)

/-! ## C10: the subject dict comprehension of `subject_multi_process`

`subjects = {sub.strip(' /'): link.strip() for raw_value in subjects
for link, sub in [raw_value.split(',', 1)]}` — each raw XML value is
split at its first comma into `(link, name)`, the name is stripped of
surrounding spaces and slashes, and the pairs are folded into a dict
(last assignment to a key wins).  A raw value without a comma would
raise `ValueError` in Python; that is modelled as `none`.
-/

def splitCommaAux : List Char → List Char → Option (List Char × List Char)
  | [], _ => none
  | c :: rest, acc => if c = ',' then some (acc.reverse, rest) else splitCommaAux rest (c :: acc)

/-- `raw.split(',', 1)` unpacked into `link, sub`; `none` when the raw
value has no comma (the Python comprehension would raise). -/
def splitFirstComma (s : String) : Option (String × String) :=
  (splitCommaAux s.data []).map fun p => (⟨p.1⟩, ⟨p.2⟩)

/-- Process one raw XML value into the `(stripped name, stripped link)`
pair the comprehension inserts. -/
def processRaw (raw : String) : Option (String × String) :=
  (splitFirstComma raw).map fun p =>
    (⟨stripEnds (fun c => c = ' ' || c = '/') p.2.data⟩, ⟨stripEnds pyIsSpace p.1.data⟩)

/-- The whole comprehension: dict built left to right with overwrite. -/
def buildSubjects (raws : List String) : Option (List (String × String)) :=
  (raws.mapM processRaw).map fun pairs =>
    pairs.foldl (fun m p => insertOverwrite m p.1 p.2) []

example :
    buildSubjects ["http://a , Математика / ", "http://b,Математика"] =
      some [("Математика", "http://b")] := by decide

/-! ## C5/C9: semester extraction and the data-correction pass

`extract_semester_from_name` searches the subject name for the regex
`\b(\d{1,2})(?:-й|-ой|-го|-му|-м|-й\s+|-го\s+)?\s*семестр` with
`re.IGNORECASE`.  The matcher below scans positions left to right
(leftmost match wins, as `re.search` does), takes two digits greedily
before backtracking to one, tries the optional suffix alternatives in
the regex's order, and matches the literal `семестр` case-insensitively.
Word characters (for the `\b` boundary) are modelled as ASCII
alphanumerics, underscore and Cyrillic letters — the alphabets the
portal data uses.
-/

def lowerChar (c : Char) : Char :=
  if 'A' ≤ c && c ≤ 'Z' then Char.ofNat (c.toNat + 32)
  else if 0x410 ≤ c.toNat && c.toNat ≤ 0x42F then Char.ofNat (c.toNat + 32)
  else if c.toNat = 0x401 then Char.ofNat 0x451
  else c

def isWordChar (c : Char) : Bool :=
  c.isAlpha || c.isDigit || c = '_' || (0x400 ≤ c.toNat && c.toNat ≤ 0x4FF)

/-- Match a (lowercase) literal against the head of the input,
lowercasing input characters; return the rest on success. -/
def litMatch : List Char → List Char → Option (List Char)
  | [], input => some input
  | _ :: _, [] => none
  | l :: ls, c :: cs => if lowerChar c = l then litMatch ls cs else none

/-- `\s*семестр` — skip whitespace, then the literal. -/
def wsSem (rest : List Char) : Bool :=
  (litMatch "семестр".data (rest.dropWhile pyIsSpace)).isSome

/-- One suffix alternative followed by `\s*семестр`. -/
def altLit (lit : String) (rest : List Char) : Bool :=
  match litMatch lit.data rest with
  | some r => wsSem r
  | none => false

/-- A suffix alternative followed by `\s+` (at least one space) and then
`\s*семестр`. -/
def altLitWs1 (lit : String) (rest : List Char) : Bool :=
  match litMatch lit.data rest with
  | some (c :: r) => pyIsSpace c && wsSem r
  | _ => false

/-- After the digits: the optional ordinal suffix (alternatives in the
regex's order, including the empty alternative) and `\s*семестр`. -/
def afterDigits (rest : List Char) : Bool :=
  altLit "-й" rest || altLit "-ой" rest || altLit "-го" rest || altLit "-му" rest ||
    altLit "-м" rest || altLitWs1 "-й" rest || altLitWs1 "-го" rest || wsSem rest

def digitVal (c : Char) : Nat :=
  c.toNat - '0'.toNat

/-- Try the whole pattern at this position (the position's character
must start the `\d{1,2}` group; two digits are tried before one). -/
def tryPosition : List Char → Option Nat
  | [] => none
  | c1 :: rest =>
    if c1.isDigit then
      match rest with
      | c2 :: rest2 =>
        if c2.isDigit then
          if afterDigits rest2 then some (10 * digitVal c1 + digitVal c2)
          else if afterDigits rest then some (digitVal c1)
          else none
        else if afterDigits rest then some (digitVal c1) else none
      | [] => none
    else none

/-- Scan left to right; a match may start at a position only when the
previous character is not a word character (`\b` before a digit). -/
def searchSem : List Char → Bool → Option Nat
  | [], _ => none
  | c :: rest, prevWord =>
    match (if prevWord then none else tryPosition (c :: rest)) with
    | some k => some k
    | none => searchSem rest (isWordChar c)

/-- `extract_semester_from_name` from `url_parser.py`. -/
def extract_semester_from_name (s : String) : Option Nat :=
  searchSem s.data false

example : extract_semester_from_name "Практика 3 семестр" = some 3 := by decide
example : extract_semester_from_name "10-й СЕМЕСТР" = some 10 := by decide
example : extract_semester_from_name "3-го семестра" = some 3 := by decide
example : extract_semester_from_name "семестр" = none := by decide
example : extract_semester_from_name "абв3 семестр" = none := by decide
example : extract_semester_from_name "Физика" = none := by decide

/-! ## C6: program types and `determine_eval_method`

`determine_program_type` only ever returns the pairs
(магистратура, 4), (бакалавриат, 8), (специалитет, 11); the program
type is the inductive below and `progMax` is that pairing, which is
also the `max_semesters` dict inside `determine_eval_method`.
-/

inductive ProgType where
  | bachelor
  | master
  | specialist
  deriving Repr, DecidableEq

def progMax : ProgType → Nat
  | .bachelor => 8
  | .master => 4
  | .specialist => 11

/-- `determine_eval_method` from `url_parser.py` (the `sub_name`
argument is lowercased and stripped by the source but never used). -/
def determine_eval_method (sub_name : String) (semester : Nat) (progType : ProgType)
    (is_practice_or_attestation : Bool) : String :=
  if is_practice_or_attestation then "Оценка"
  else if progMax progType - 1 ≤ semester then "Экзамен"
  else "Зачет"

/-! ## C5/C9: the per-row data-correction step

The `__main__` data-correction loop, for one selected row.  The fuzzy
`match_practice` result and the `random.randint(1, max_semesters)` draw
are inputs: `fuzzyRes` is `new_sem` when the fuzzy matcher scored above
80 (`none` otherwise), `randVal` is the random fallback value.
-/

def correctSem (sub_sem : Nat) (sub_name : String) (maxSem : Nat) (fuzzyRes : Option Nat)
    (randVal : Nat) : Nat × Bool :=
  if sub_sem = 0 then
    match extract_semester_from_name sub_name with
    | some k =>
      if k ≤ maxSem then (k, false)
      else
        match fuzzyRes with
        | some fs => (fs, true)
        | none => (randVal, false)
    | none =>
      match fuzzyRes with
      | some fs => (fs, true)
      | none => (randVal, false)
  else (sub_sem, false)

/-- One row of the `subjects` table as the correction pass reads it. -/
structure SubjectRow where
  id : Nat
  name : String
  semester : Nat
  eval_method : String
  program_id : Nat
  deriving Repr, DecidableEq

/-- The `(new_sem, new_eval)` pair the correction loop writes for one
selected row: semester corrected only when it is 0, evaluation method
only when it is empty. -/
def correctRow (row : SubjectRow) (progType : ProgType) (fuzzyRes : Option Nat)
    (randVal : Nat) : Nat × String :=
  let sb := correctSem row.semester row.name (progMax progType) fuzzyRes randVal
  let new_eval :=
    if row.eval_method = "" then determine_eval_method row.name sb.1 progType sb.2
    else row.eval_method
  (sb.1, new_eval)

/-- `UPDATE subjects SET semester = ?, eval_method = ? WHERE id = ?`
over the subjects table held as a list of rows. -/
def applyUpdate (db : List SubjectRow) (sid : Nat) (ns : Nat) (ne : String) :
    List SubjectRow :=
  db.map fun r => if r.id = sid then { r with semester := ns, eval_method := ne } else r

/-! ## C7/C8: the `url_parser` fetcher

`url_parser(session, url)` and its global `session_counter` are
modelled as a state machine: `net t` is the HTTP status of the
`t`-th `session.get` issued by the process, and the function returns
`(result, final counter, next request index)`.  A response object is
just its status code here.  The recursion mirrors the source: on any
non-200 non-401 status the (failing) response itself is returned; on
401 the counter is bumped, and either the budget is exhausted
(`counter > 5`: return `None`, reset the counter to 0) or a fresh
session re-requests the same URL.
-/

structure HttpResponse where
  status : Nat
  deriving Repr, DecidableEq

/-- Truthiness of a `requests.Response`: `__bool__` returns `self.ok`,
which is true exactly when the status code is below 400. -/
def respTruthy (r : HttpResponse) : Bool :=
  r.status < 400

def urlParserModel (net : Nat → Nat) (t counter : Nat) : Option HttpResponse × Nat × Nat :=
  let status := net t
  if status ≠ 200 then
    if status = 401 then
      if h : counter + 1 > 5 then (none, 0, t + 1)
      else urlParserModel net (t + 1) (counter + 1)
    else (some ⟨status⟩, counter, t + 1)
  else (some ⟨status⟩, counter, t + 1)
  termination_by 6 - counter
  decreasing_by omega

/-! ## C4: grade generation

`random.choices(population, weights)[0]` draws `r = random.random()`
(so `0 ≤ r < 1`), scales by the total weight and picks the first
element whose cumulative weight exceeds `r`.  `choicesPick` is that
selection over the zipped `(value, weight)` list; `none` is the
out-of-range overflow that cannot occur for `r` below the total
weight.  `genGrade` is the per-subject body of the grade-generation
loop: `None` for a subject whose stored semester is 0 or in the
student's future, otherwise a draw from the eval-method's domain with
the CONFIG weights.
-/

def choicesPick : List (Nat × ℚ) → ℚ → Option Nat
  | [], _ => none
  | (a, w) :: rest, r => if r < w then some a else choicesPick rest (r - w)

/-- `CONFIG['EXAM_PROBABILITY']` zipped with the graded population. -/
def examPairs : List (Nat × ℚ) :=
  [(5, 0.25), (4, 0.4), (3, 0.25), (2, 0.1)]

/-- `CONFIG['PASS_PROBABILITY']` zipped with the pass/fail population. -/
def passPairs : List (Nat × ℚ) :=
  [(1, 0.75), (0, 0.25)]

def genGrade (semester studentSemester : Nat) (eval_method : String) (r : ℚ) : Option Nat :=
  if semester = 0 ∨ studentSemester < semester then none
  else if eval_method = "Экзамен" ∨ eval_method = "Оценка" then choicesPick examPairs r
  else choicesPick passPairs r

/-! ## C3: scholarship allocation

The `__main__` scholarship loop iterates the `SELECT id, name, group_id
FROM students ORDER BY id` result against one shared `remaining` fund.
Each student's current-semester grade query result is a list of
optional grades; each `random.random()` call is a rational input of its
own (`socialDraw`, `academicDraw`).  The outcome tag records which
`print` branch the source takes; the scholarship component is the value
the student's `scholarship` column holds after the student's iteration.
-/

structure ScholCfg where
  socialAmt : Nat
  socialProb : ℚ
  academicAmt : Nat
  academicProb : ℚ
  deriving Repr

inductive ScholOutcome where
  | noGrades
  | missingGrades
  | notEligible
  | insufficientSocial
  | chanceFailedSocial
  | socialInsufficientAcademic
  | socialChanceFailedAcademic
  | socialTooManyFours
  | socialAndAcademic
  deriving Repr, DecidableEq

structure StudentIn where
  id : Nat
  grades : List (Option Nat)
  socialDraw : ℚ
  academicDraw : ℚ

structure StepRes where
  schol : Nat
  rem : Nat
  out : ScholOutcome
  deriving Repr, DecidableEq

/-- One student's pass through the scholarship loop. -/
def scholStep (cfg : ScholCfg) (remaining : Nat) (s : StudentIn) : StepRes :=
  if s.grades.isEmpty then ⟨0, remaining, .noGrades⟩
  else if s.grades.any fun g => g = none then ⟨0, remaining, .missingGrades⟩
  else if s.grades.any fun g => g = some 0 ∨ g = some 2 ∨ g = some 3 then
    ⟨0, remaining, .notEligible⟩
  else if cfg.socialAmt ≤ remaining ∧ s.socialDraw < cfg.socialProb then
    let rem1 := remaining - cfg.socialAmt
    let countFours := s.grades.countP fun g => g = some 4
    if countFours ≤ 2 then
      if s.academicDraw < cfg.academicProb then
        if cfg.academicAmt ≤ rem1 then
          ⟨cfg.socialAmt + cfg.academicAmt, rem1 - cfg.academicAmt, .socialAndAcademic⟩
        else ⟨cfg.socialAmt, rem1, .socialInsufficientAcademic⟩
      else ⟨cfg.socialAmt, rem1, .socialChanceFailedAcademic⟩
    else ⟨cfg.socialAmt, rem1, .socialTooManyFours⟩
  else if remaining < cfg.socialAmt then ⟨0, remaining, .insufficientSocial⟩
  else ⟨0, remaining, .chanceFailedSocial⟩

/-- The allocation loop: thread the shared fund through the students in
the order of the `ORDER BY id` query; record each student's final
scholarship value and outcome. -/
def scholAlloc (cfg : ScholCfg) (remaining : Nat) :
    List StudentIn → List (Nat × Nat × ScholOutcome)
  | [] => []
  | s :: rest =>
    let r := scholStep cfg remaining s
    (s.id, r.schol, r.out) :: scholAlloc cfg r.rem rest

/-! ## Theorems -/

lemma padTruncate_length (n : Nat) (vals : List String) : (padTruncate n vals).length = n := by
  simp only [padTruncate]
  split_ifs with h1 h2 <;> simp_all <;> omega

lemma lookupA_insertOverwrite (m : List (String × String)) (k v key : String) :
    lookupA (insertOverwrite m k v) key = if k = key then some v else lookupA m key := by
  induction m with
  | nil => by_cases h : k = key <;> simp [insertOverwrite, lookupA, h]
  | cons hd tl ih =>
    obtain ⟨k0, v0⟩ := hd
    by_cases h0 : k0 = k
    · subst h0
      by_cases h1 : k0 = key <;> simp [insertOverwrite, lookupA, h1]
    · by_cases h1 : k0 = key
      · subst h1
        simp [insertOverwrite, lookupA, h0, Ne.symm h0]
      · simp [insertOverwrite, lookupA, h0, h1, ih]

lemma lookupA_foldl_insert (pairs db : List (String × String)) (key : String) :
    lookupA (pairs.foldl (fun m p => insertOverwrite m p.1 p.2) db) key =
      match pairs.reverse.find? (fun p => p.1 == key) with
      | some p => some p.2
      | none => lookupA db key := by
  induction pairs generalizing db with
  | nil => simp
  | cons p rest ih =>
    simp only [List.foldl_cons, List.reverse_cons, List.find?_append]
    rw [ih]
    cases h : rest.reverse.find? (fun q => q.1 == key) with
    | some q => simp [h]
    | none =>
      simp only [h, Option.none_or]
      by_cases hp : p.1 = key
      · simp [List.find?, hp, lookupA_insertOverwrite]
      · have hb : (p.1 == key) = false := by simpa using hp
        simp [List.find?, hp, hb, lookupA_insertOverwrite]

lemma mem_keys_insertOverwrite {m : List (String × String)} {k v x : String}
    (h : x ∈ (insertOverwrite m k v).map Prod.fst) : x ∈ m.map Prod.fst ∨ x = k := by
  induction m with
  | nil =>
    simp [insertOverwrite] at h
    simp [h]
  | cons hd tl ih =>
    obtain ⟨k0, v0⟩ := hd
    by_cases h0 : k0 = k
    · subst h0
      simp only [insertOverwrite, if_pos, List.map_cons, List.mem_cons] at h ⊢
      tauto
    · simp only [insertOverwrite, if_neg h0, List.map_cons, List.mem_cons] at h ⊢
      rcases h with h | h
      · tauto
      · rcases ih h with h2 | h2 <;> tauto

lemma nodupKeys_insertOverwrite {m : List (String × String)} (k v : String)
    (h : (m.map Prod.fst).Nodup) : ((insertOverwrite m k v).map Prod.fst).Nodup := by
  induction m with
  | nil => simp [insertOverwrite]
  | cons hd tl ih =>
    obtain ⟨k0, v0⟩ := hd
    simp only [List.map_cons, List.nodup_cons] at h
    by_cases h0 : k0 = k
    · subst h0
      simp only [insertOverwrite, if_pos, List.map_cons, List.nodup_cons]
      exact ⟨h.1, h.2⟩
    · simp only [insertOverwrite, if_neg h0, List.map_cons, List.nodup_cons]
      refine ⟨?_, ih h.2⟩
      intro hmem
      rcases mem_keys_insertOverwrite hmem with hx | hx
      · exact h.1 hx
      · exact h0 hx

lemma nodupKeys_foldl_insert (pairs : List (String × String)) (db : List (String × String))
    (h : (db.map Prod.fst).Nodup) :
    ((pairs.foldl (fun m p => insertOverwrite m p.1 p.2) db).map Prod.fst).Nodup := by
  induction pairs generalizing db with
  | nil => simpa
  | cons p rest ih => exact ih _ (nodupKeys_insertOverwrite _ _ h)

lemma keys_insertOverwrite_iff : ∀ (m : List (String × String)) (k v x : String),
    x ∈ (insertOverwrite m k v).map Prod.fst ↔ x ∈ m.map Prod.fst ∨ x = k := by
  intro m
  induction m with
  | nil => intro k v x; simp [insertOverwrite]
  | cons hd tl ih =>
    intro k v x
    obtain ⟨k0, v0⟩ := hd
    by_cases h0 : k0 = k
    · subst h0
      simp only [insertOverwrite, if_pos, List.map_cons, List.mem_cons]
      tauto
    · simp only [insertOverwrite, if_neg h0, List.map_cons, List.mem_cons, ih]
      tauto

lemma mem_keys_foldl_insert (pairs : List (String × String)) :
    ∀ (db : List (String × String)) (x : String),
    x ∈ ((pairs.foldl (fun m p => insertOverwrite m p.1 p.2) db).map Prod.fst) ↔
      x ∈ db.map Prod.fst ∨ x ∈ pairs.map Prod.fst := by
  induction pairs with
  | nil => intro db x; simp
  | cons p rest ih =>
    intro db x
    simp only [List.foldl_cons, ih, keys_insertOverwrite_iff, List.map_cons, List.mem_cons]
    tauto

lemma insertOverwrite_append (m : List (String × String)) (k v : String)
    (h : k ∉ m.map Prod.fst) : insertOverwrite m k v = m ++ [(k, v)] := by
  induction m with
  | nil => simp [insertOverwrite]
  | cons hd tl ih =>
    obtain ⟨k0, v0⟩ := hd
    simp only [List.map_cons, List.mem_cons] at h
    push_neg at h
    have hne : ¬ (k0 = k) := fun hc => h.1 hc.symm
    simp only [insertOverwrite, if_neg hne, List.cons_append, List.cons.injEq, true_and]
    exact ih h.2

lemma foldl_insert_eq_append (pairs : List (String × String)) :
    ∀ db : List (String × String), (pairs.map Prod.fst).Nodup →
    (∀ k ∈ pairs.map Prod.fst, k ∉ db.map Prod.fst) →
    pairs.foldl (fun m p => insertOverwrite m p.1 p.2) db = db ++ pairs := by
  induction pairs with
  | nil =>
    intro db _ _
    simp
  | cons p rest ih =>
    intro db hnd hdisj
    simp only [List.map_cons, List.nodup_cons] at hnd
    simp only [List.foldl_cons]
    rw [insertOverwrite_append db p.1 p.2 (hdisj p.1 (by simp))]
    rw [ih (db ++ [(p.1, p.2)]) hnd.2 ?_]
    · simp
    · intro k hk
      simp only [List.map_append, List.mem_append, List.map_cons, List.map_nil,
        List.mem_singleton]
      push_neg
      refine ⟨hdisj k (by simp [hk]), ?_⟩
      intro hc
      exact absurd (hc ▸ hk) hnd.1

/-- C1 (amended): for every parsed table in which headers were found,
the aligned value list has exactly as many values as there are headers
(leading icon-only cells dropped while the row is longer than the
headers, then padded with empty strings or truncated); the stored row
dict has at most one field per header text, its keys are exactly the
distinct header texts, and whenever the found headers are pairwise
distinct the row is exactly `zip(headers, vals)` — in particular it
then has exactly as many fields as there are headers. -/
theorem c1_row_alignment (headers : List String) (tds : List Td) (h : headers ≠ []) :
    ∃ fields, rowFields headers tds = some fields ∧
      (alignedVals headers tds).length = headers.length ∧
      (fields.map Prod.fst).Nodup ∧
      (∀ k, k ∈ fields.map Prod.fst ↔ k ∈ headers) ∧
      (headers.Nodup →
        fields = headers.zip (alignedVals headers tds) ∧
        fields.length = headers.length ∧
        fields.map Prod.fst = headers) := by
  have hlen : (alignedVals headers tds).length = headers.length := by
    simp [alignedVals, padTruncate_length]
  have hzipkeys : (headers.zip (alignedVals headers tds)).map Prod.fst = headers :=
    List.map_fst_zip _ _ (le_of_eq hlen.symm)
  refine ⟨(headers.zip (alignedVals headers tds)).foldl
      (fun m p => insertOverwrite m p.1 p.2) [], ?_, hlen, ?_, ?_, ?_⟩
  · simp [rowFields, List.isEmpty_iff, h]
  · exact nodupKeys_foldl_insert _ _ (by simp)
  · intro k
    rw [mem_keys_foldl_insert, hzipkeys]
    simp
  · intro hnd
    have hznd : ((headers.zip (alignedVals headers tds)).map Prod.fst).Nodup := by
      rw [hzipkeys]
      exact hnd
    have heq : (headers.zip (alignedVals headers tds)).foldl
        (fun m p => insertOverwrite m p.1 p.2) [] = headers.zip (alignedVals headers tds) := by
      rw [foldl_insert_eq_append _ [] hznd (by simp)]
      simp
    rw [heq]
    refine ⟨rfl, ?_, hzipkeys⟩
    rw [List.length_zip, hlen, Nat.min_self]

theorem c1_witness :
    ∃ fields,
      rowFields ["Семестр", "Отчетность"]
          [⟨" ", 1, []⟩, ⟨"3", 0, []⟩, ⟨"Экзамен", 0, []⟩, ⟨"extra", 0, []⟩] = some fields ∧
        (alignedVals ["Семестр", "Отчетность"]
            [⟨" ", 1, []⟩, ⟨"3", 0, []⟩, ⟨"Экзамен", 0, []⟩, ⟨"extra", 0, []⟩]).length =
          (["Семестр", "Отчетность"] : List String).length ∧
        (fields.map Prod.fst).Nodup ∧
        (∀ k, k ∈ fields.map Prod.fst ↔ k ∈ (["Семестр", "Отчетность"] : List String)) ∧
        ((["Семестр", "Отчетность"] : List String).Nodup →
          fields = (["Семестр", "Отчетность"] : List String).zip
            (alignedVals ["Семестр", "Отчетность"]
              [⟨" ", 1, []⟩, ⟨"3", 0, []⟩, ⟨"Экзамен", 0, []⟩, ⟨"extra", 0, []⟩]) ∧
          fields.length = (["Семестр", "Отчетность"] : List String).length ∧
          fields.map Prod.fst = ["Семестр", "Отчетность"]) :=
  c1_row_alignment ["Семестр", "Отчетность"]
    [⟨" ", 1, []⟩, ⟨"3", 0, []⟩, ⟨"Экзамен", 0, []⟩, ⟨"extra", 0, []⟩] (by decide)

/-- The original C1 statement fails on the code: with duplicate header
texts (reachable through the non-deduplicating fallback header
extraction), `dict(zip(headers, vals))` collapses the duplicate columns
into one field, so the stored row has fewer fields than there are
headers. -/
theorem c1_counterexample :
    rowFields ["Часы", "Часы"] [⟨"10", 0, []⟩, ⟨"20", 0, []⟩] = some [("Часы", "20")] ∧
    ([("Часы", "20")] : List (String × String)).length ≠
      (["Часы", "Часы"] : List String).length := by
  decide

/-- C6: `determine_eval_method` returns `Оценка` for every
practice/attestation subject; otherwise it returns `Экзамен` exactly
when the semester is at least the program type's maximum semester count
minus one (bachelor 8, master 4, specialist 11) and `Зачет` in all
remaining cases. -/
theorem c6_eval_method_rules (n : String) (s : Nat) (pt : ProgType) :
    determine_eval_method n s pt true = "Оценка" ∧
    (determine_eval_method n s pt false = "Экзамен" ↔ progMax pt - 1 ≤ s) ∧
    (determine_eval_method n s pt false = "Зачет" ↔ s < progMax pt - 1) ∧
    progMax ProgType.bachelor = 8 ∧ progMax ProgType.master = 4 ∧
    progMax ProgType.specialist = 11 := by
  refine ⟨rfl, ?_, ?_, rfl, rfl, rfl⟩ <;>
    by_cases hc : progMax pt - 1 ≤ s <;> simp [determine_eval_method, hc] <;> omega

/-- C8 (amended): a fetch whose status is neither 200 nor 401 returns
the failing response object itself (with that status), not `None` —
the null return arises only from the 401 retry budget — and the retry
counter is untouched; but for a 4xx/5xx status the returned object is
falsy under requests' ok-based truthiness, so callers that test the
result for truthiness skip the item instead of parsing the error
page. -/
theorem c8_error_response_returned (net : Nat → Nat) (t c : Nat)
    (h200 : net t ≠ 200) (h401 : net t ≠ 401) :
    urlParserModel net t c = (some ⟨net t⟩, c, t + 1) ∧
    (400 ≤ net t → respTruthy ⟨net t⟩ = false) := by
  constructor
  · unfold urlParserModel
    simp [h200, h401]
  · intro h400
    simp [respTruthy, Nat.not_lt.mpr h400]

theorem c8_witness :
    urlParserModel (fun _ => 403) 0 0 = (some ⟨403⟩, 0, 1) ∧
    (400 ≤ 403 → respTruthy ⟨403⟩ = false) :=
  c8_error_response_returned (fun _ => 403) 0 0 (by decide) (by decide)

/-- The original C8 conclusion fails on the code: at status 403 the
fetcher does return the response object, but `requests.Response`
truthiness is ok-based, so the returned object is falsy and a caller
testing `if not response:` skips it rather than parsing the error
page. -/
theorem c8_counterexample :
    (urlParserModel (fun _ => 403) 0 0).1 = some ⟨403⟩ ∧ respTruthy ⟨403⟩ = false := by
  constructor
  · unfold urlParserModel
    simp
  · decide

/-- C5: a subject with stored semester 0 whose name matches the
semester-extraction regex with value `k ≤ maxSem` is assigned semester
`k` with the practice flag off, independently of the fuzzy-match result
and of the random fallback value (neither is invoked). -/
theorem c5_extraction_deterministic (name : String) (k maxSem : Nat)
    (he : extract_semester_from_name name = some k) (hk : k ≤ maxSem)
    (fuzzyRes : Option Nat) (randVal : Nat) :
    correctSem 0 name maxSem fuzzyRes randVal = (k, false) := by
  simp [correctSem, he, hk]

theorem c5_witness :
    correctSem 0 "Практика 3 семестр" 8 (some 7) 5 = (3, false) :=
  c5_extraction_deterministic "Практика 3 семестр" 3 8 (by decide) (by decide) (some 7) 5

/-- C9: the data-correction pass preserves already-known fields — a
selected row with nonzero semester gets its semester written back
unchanged, a selected row with nonempty eval_method gets its
eval_method written back unchanged — and the UPDATE leaves every row
whose id differs from the subject's id exactly in place. -/
theorem c9_correction_frame (row : SubjectRow) (pt : ProgType) (fz : Option Nat) (rv : Nat)
    (db : List SubjectRow) :
    (row.semester ≠ 0 → (correctRow row pt fz rv).1 = row.semester) ∧
    (row.eval_method ≠ "" → (correctRow row pt fz rv).2 = row.eval_method) ∧
    ∀ (ns : Nat) (ne : String),
      (applyUpdate db row.id ns ne).length = db.length ∧
      ∀ i (h1 : i < db.length) (h2 : i < (applyUpdate db row.id ns ne).length),
        (db.get ⟨i, h1⟩).id ≠ row.id →
        (applyUpdate db row.id ns ne).get ⟨i, h2⟩ = db.get ⟨i, h1⟩ := by
  refine ⟨?_, ?_, ?_⟩
  · intro h
    simp [correctRow, correctSem, h]
  · intro h
    simp [correctRow, h]
  · intro ns ne
    refine ⟨by simp [applyUpdate], ?_⟩
    intro i h1 h2 hid
    simp only [applyUpdate, List.get_eq_getElem, List.getElem_map]
    simp only [List.get_eq_getElem] at hid
    rw [if_neg hid]

theorem c9_witness :
    (correctRow ⟨7, "Физика", 3, "", 2⟩ ProgType.bachelor none 5).1 = 3 ∧
    (correctRow ⟨8, "История", 0, "Экзамен", 2⟩ ProgType.master (some 2) 1).2 = "Экзамен" ∧
    (applyUpdate [⟨7, "Физика", 3, "", 2⟩, ⟨9, "Химия", 1, "Зачет", 2⟩] 7 4 "Зачет").length =
      ([⟨7, "Физика", 3, "", 2⟩, ⟨9, "Химия", 1, "Зачет", 2⟩] : List SubjectRow).length ∧
    (applyUpdate [⟨7, "Физика", 3, "", 2⟩, ⟨9, "Химия", 1, "Зачет", 2⟩] 7 4 "Зачет").get
        ⟨1, by decide⟩ =
      ([⟨7, "Физика", 3, "", 2⟩, ⟨9, "Химия", 1, "Зачет", 2⟩] : List SubjectRow).get
        ⟨1, by decide⟩ :=
  ⟨(c9_correction_frame ⟨7, "Физика", 3, "", 2⟩ ProgType.bachelor none 5 []).1 (by decide),
   (c9_correction_frame ⟨8, "История", 0, "Экзамен", 2⟩ ProgType.master (some 2) 1 []).2.1
     (by decide),
   ((c9_correction_frame ⟨7, "Физика", 3, "", 2⟩ ProgType.bachelor none 5
       [⟨7, "Физика", 3, "", 2⟩, ⟨9, "Химия", 1, "Зачет", 2⟩]).2.2 4 "Зачет").1,
   ((c9_correction_frame ⟨7, "Физика", 3, "", 2⟩ ProgType.bachelor none 5
       [⟨7, "Физика", 3, "", 2⟩, ⟨9, "Химия", 1, "Зачет", 2⟩]).2.2 4 "Зачет").2 1 (by decide)
     (by decide) (by decide)⟩

/-- C10: the raw `link, name` pairs of a program's XML export are
collapsed into a dict keyed by the stripped subject name: the built map
holds at most one entry per name, and the URL stored for a name is the
one of the last raw entry whose stripped name equals it. -/
theorem c10_subject_dict_last_wins (raws : List String) (pairs : List (String × String))
    (h : raws.mapM processRaw = some pairs) (key : String) :
    buildSubjects raws = some (pairs.foldl (fun m p => insertOverwrite m p.1 p.2) []) ∧
    lookupA (pairs.foldl (fun m p => insertOverwrite m p.1 p.2) []) key =
      (pairs.reverse.find? fun p => p.1 == key).map Prod.snd ∧
    ((pairs.foldl (fun m p => insertOverwrite m p.1 p.2) []).map Prod.fst).Nodup := by
  refine ⟨?_, ?_, nodupKeys_foldl_insert _ _ (by simp)⟩
  · unfold buildSubjects
    rw [h]
    rfl
  rw [lookupA_foldl_insert]
  cases hf : pairs.reverse.find? (fun p => p.1 == key) <;> simp [lookupA]

theorem c10_witness :
    buildSubjects ["http://a, Математика /", " http://b ,Математика"] =
      some ([(("Математика" : String), ("http://a" : String)),
        ("Математика", "http://b")].foldl (fun m p => insertOverwrite m p.1 p.2) []) ∧
    lookupA ([(("Математика" : String), ("http://a" : String)),
        ("Математика", "http://b")].foldl (fun m p => insertOverwrite m p.1 p.2) [])
        "Математика" =
      ([(("Математика" : String), ("http://a" : String)),
        ("Математика", "http://b")].reverse.find? fun p => p.1 == "Математика").map
        Prod.snd ∧
    (([(("Математика" : String), ("http://a" : String)),
        ("Математика", "http://b")].foldl (fun m p => insertOverwrite m p.1 p.2) []).map
        Prod.fst).Nodup :=
  c10_subject_dict_last_wins ["http://a, Математика /", " http://b ,Математика"]
    [("Математика", "http://a"), ("Математика", "http://b")] (by decide) "Математика"

lemma key_unique {l : List (String × String)} (h : (l.map Prod.fst).Nodup)
    {p q : String × String} (hp : p ∈ l) (hq : q ∈ l) (hk : p.1 = q.1) : p = q := by
  induction l with
  | nil => cases hp
  | cons hd tl ih =>
    simp only [List.map_cons, List.nodup_cons] at h
    rcases List.mem_cons.mp hp with rfl | hp2
    · rcases List.mem_cons.mp hq with rfl | hq2
      · rfl
      · exact absurd (hk ▸ List.mem_map_of_mem Prod.fst hq2) h.1
    · rcases List.mem_cons.mp hq with rfl | hq2
      · exact absurd (hk ▸ List.mem_map_of_mem Prod.fst hp2) h.1
      · exact ih h.2 hp2 hq2

/-- C2: re-running a crawl stage against unchanged source pages inserts
nothing. For institutes/departments/programs: after the first run's
batch is upserted, the second run's `new_entries` filter (name already
stored with the same url) is empty. For subjects: after the first run's
`(name, semester)` pairs are persisted, the second run's dedup filter
is empty. -/
theorem c2_recrawl_idempotent (links existing : List (String × String))
    (hnd : (links.map Prod.fst).Nodup)
    (parsed : List NewSubject) (existingSubs : List (String × Nat)) :
    newEntries links (applyUpserts existing (newEntries links existing)) = [] ∧
    newSubjects parsed (existingSubs ++ (newSubjects parsed existingSubs).map subjectKey) =
      [] := by
  constructor
  · rw [newEntries, List.filter_eq_nil_iff]
    intro p hp
    have hlk : lookupA (applyUpserts existing (newEntries links existing)) p.1 = some p.2 := by
      rw [applyUpserts, lookupA_foldl_insert]
      cases hf : (newEntries links existing).reverse.find? (fun q => q.1 == p.1) with
      | some q =>
        have hq1 : q ∈ newEntries links existing :=
          List.mem_reverse.mp (List.mem_of_find?_eq_some hf)
        have hq2 : q ∈ links := List.mem_of_mem_filter hq1
        have hqk : q.1 = p.1 := by simpa using List.find?_some hf
        rw [key_unique hnd hq2 hp hqk]
      | none =>
        have hnotin : p ∉ newEntries links existing := by
          intro hmem
          have h2 := List.find?_eq_none.mp hf p (List.mem_reverse.mpr hmem)
          simp at h2
        have hpred : ¬ ((match lookupA existing p.1 with
            | none => true
            | some u => decide (u ≠ p.2)) = true) := fun hc =>
          hnotin (List.mem_filter.mpr ⟨hp, hc⟩)
        cases hle : lookupA existing p.1 with
        | none => simp [hle] at hpred
        | some u =>
          rw [hle] at hpred
          simp only [decide_eq_true_eq, not_not] at hpred
          simp [hpred]
    rw [hlk]
    simp
  · rw [newSubjects, List.filter_eq_nil_iff]
    intro s hs
    simp only [decide_eq_true_eq, not_not]
    by_cases hin : subjectKey s ∈ existingSubs
    · exact List.mem_append.mpr (Or.inl hin)
    · refine List.mem_append.mpr (Or.inr ?_)
      refine List.mem_map_of_mem subjectKey ?_
      rw [newSubjects, List.mem_filter]
      exact ⟨hs, by simpa using hin⟩

theorem c2_witness :
    newEntries [("ИнПИТ", "http://u1")]
        (applyUpserts [] (newEntries [("ИнПИТ", "http://u1")] [])) = [] ∧
    newSubjects [⟨"Математика", 1, "Зачет", "http://s"⟩]
        ([] ++ (newSubjects [⟨"Математика", 1, "Зачет", "http://s"⟩] []).map subjectKey) =
      [] :=
  c2_recrawl_idempotent [("ИнПИТ", "http://u1")] [] (by decide)
    [⟨"Математика", 1, "Зачет", "http://s"⟩] []

/-- C7: when every request comes back 401 the fetcher re-requests the
same URL, bumping one counter shared across calls: starting from any
cumulative count `c ≤ 5` it issues `6 - c` further requests, returns
`None` once the count exceeds 5, and resets the counter to 0 so that a
later call starts with a fresh budget. -/
theorem c7_shared_retry_budget (net : Nat → Nat) (hnet : ∀ i, net i = 401) (t c : Nat)
    (hc : c ≤ 5) :
    urlParserModel net t c = (none, 0, t + (6 - c)) := by
  interval_cases c <;> simp [urlParserModel, hnet, Prod.ext_iff]

theorem c7_witness : urlParserModel (fun _ => 401) 10 3 = (none, 0, 10 + (6 - 3)) :=
  c7_shared_retry_budget (fun _ => 401) (fun _ => rfl) 10 3 (by decide)

lemma choicesPick_exam (r : ℚ) (h1 : r < 1) :
    choicesPick examPairs r =
      some (if r < 0.25 then 5 else if r < 0.65 then 4 else if r < 0.9 then 3 else 2) := by
  simp only [examPairs, choicesPick]
  rcases lt_or_le r 0.25 with ha | ha
  · rw [if_pos ha, if_pos ha]
  · rw [if_neg (not_lt.mpr ha), if_neg (not_lt.mpr ha)]
    rcases lt_or_le r 0.65 with hb | hb
    · rw [if_pos (show r - 0.25 < 0.4 by linarith), if_pos hb]
    · rw [if_neg (show ¬(r - 0.25 < 0.4) by push_neg; linarith), if_neg (not_lt.mpr hb)]
      rcases lt_or_le r 0.9 with hc | hc
      · rw [if_pos (show r - 0.25 - 0.4 < 0.25 by linarith), if_pos hc]
      · rw [if_neg (show ¬(r - 0.25 - 0.4 < 0.25) by push_neg; linarith),
          if_neg (not_lt.mpr hc), if_pos (show r - 0.25 - 0.4 - 0.25 < 0.1 by linarith)]

lemma choicesPick_pass (r : ℚ) (h1 : r < 1) :
    choicesPick passPairs r = some (if r < 0.75 then 1 else 0) := by
  simp only [passPairs, choicesPick]
  rcases lt_or_le r 0.75 with ha | ha
  · rw [if_pos ha, if_pos ha]
  · rw [if_neg (not_lt.mpr ha), if_neg (not_lt.mpr ha),
      if_pos (show r - 0.75 < 0.25 by linarith)]

/-- C4: grade generation gives `NULL` exactly for subjects whose stored
semester is 0 or beyond the student's current semester `S`; a subject
with semester in `[1, S]` always gets a non-null grade, from `{5,4,3,2}`
with weights `(0.25, 0.4, 0.25, 0.1)` for eval methods `Экзамен`/`Оценка`
(the thresholds below are the cumulative weights hit by the uniform draw
`r`), and from `{1,0}` with weights `(0.75, 0.25)` for every other eval
method. -/
theorem c4_grade_rules (sem S : Nat) (ev : String) (r : ℚ) (h0 : 0 ≤ r) (h1 : r < 1) :
    (genGrade sem S ev r = none ↔ sem = 0 ∨ S < sem) ∧
    ((ev = "Экзамен" ∨ ev = "Оценка") → ¬(sem = 0 ∨ S < sem) →
      ((genGrade sem S ev r = some 5 ↔ r < 0.25) ∧
       (genGrade sem S ev r = some 4 ↔ 0.25 ≤ r ∧ r < 0.65) ∧
       (genGrade sem S ev r = some 3 ↔ 0.65 ≤ r ∧ r < 0.9) ∧
       (genGrade sem S ev r = some 2 ↔ 0.9 ≤ r))) ∧
    (¬(ev = "Экзамен" ∨ ev = "Оценка") → ¬(sem = 0 ∨ S < sem) →
      ((genGrade sem S ev r = some 1 ↔ r < 0.75) ∧
       (genGrade sem S ev r = some 0 ↔ 0.75 ≤ r))) := by
  refine ⟨?_, ?_, ?_⟩
  · by_cases hz : sem = 0 ∨ S < sem
    · simp [genGrade, hz]
    · have hne : genGrade sem S ev r ≠ none := by
        by_cases hev : ev = "Экзамен" ∨ ev = "Оценка"
        · simp [genGrade, hz, hev, choicesPick_exam r h1]
        · simp [genGrade, hz, hev, choicesPick_pass r h1]
      exact iff_of_false hne hz
  · intro hev hz
    have hg : genGrade sem S ev r = choicesPick examPairs r := by
      simp [genGrade, hz, hev]
    rw [hg, choicesPick_exam r h1]
    rcases lt_or_le r 0.25 with ha | ha
    · rw [if_pos ha]
      exact ⟨iff_of_true rfl ha,
        iff_of_false (by simp) (fun h => by linarith [h.1]),
        iff_of_false (by simp) (fun h => by linarith [h.1]),
        iff_of_false (by simp) (fun h => by linarith)⟩
    · rw [if_neg (not_lt.mpr ha)]
      rcases lt_or_le r 0.65 with hb | hb
      · rw [if_pos hb]
        exact ⟨iff_of_false (by simp) (fun h => by linarith),
          iff_of_true rfl ⟨ha, hb⟩,
          iff_of_false (by simp) (fun h => by linarith [h.1]),
          iff_of_false (by simp) (fun h => by linarith)⟩
      · rw [if_neg (not_lt.mpr hb)]
        rcases lt_or_le r 0.9 with hc | hc
        · rw [if_pos hc]
          exact ⟨iff_of_false (by simp) (fun h => by linarith),
            iff_of_false (by simp) (fun h => by linarith [h.2]),
            iff_of_true rfl ⟨hb, hc⟩,
            iff_of_false (by simp) (fun h => by linarith)⟩
        · rw [if_neg (not_lt.mpr hc)]
          exact ⟨iff_of_false (by simp) (fun h => by linarith),
            iff_of_false (by simp) (fun h => by linarith [h.2]),
            iff_of_false (by simp) (fun h => by linarith [h.2]),
            iff_of_true rfl hc⟩
  · intro hev hz
    have hg : genGrade sem S ev r = choicesPick passPairs r := by
      simp [genGrade, hz, hev]
    rw [hg, choicesPick_pass r h1]
    rcases lt_or_le r 0.75 with ha | ha
    · rw [if_pos ha]
      exact ⟨iff_of_true rfl ha, iff_of_false (by simp) (fun h => by linarith)⟩
    · rw [if_neg (not_lt.mpr ha)]
      exact ⟨iff_of_false (by simp) (fun h => by linarith), iff_of_true rfl ha⟩

theorem c4_witness :
    (genGrade 1 2 "Зачет" 0 = none ↔ 1 = 0 ∨ 2 < 1) ∧
    ((("Зачет" : String) = "Экзамен" ∨ ("Зачет" : String) = "Оценка") → ¬(1 = 0 ∨ 2 < 1) →
      ((genGrade 1 2 "Зачет" 0 = some 5 ↔ (0 : ℚ) < 0.25) ∧
       (genGrade 1 2 "Зачет" 0 = some 4 ↔ (0.25 : ℚ) ≤ 0 ∧ (0 : ℚ) < 0.65) ∧
       (genGrade 1 2 "Зачет" 0 = some 3 ↔ (0.65 : ℚ) ≤ 0 ∧ (0 : ℚ) < 0.9) ∧
       (genGrade 1 2 "Зачет" 0 = some 2 ↔ (0.9 : ℚ) ≤ 0))) ∧
    (¬(("Зачет" : String) = "Экзамен" ∨ ("Зачет" : String) = "Оценка") → ¬(1 = 0 ∨ 2 < 1) →
      ((genGrade 1 2 "Зачет" 0 = some 1 ↔ (0 : ℚ) < 0.75) ∧
       (genGrade 1 2 "Зачет" 0 = some 0 ↔ (0.75 : ℚ) ≤ 0))) :=
  c4_grade_rules 1 2 "Зачет" 0 (by norm_num) (by norm_num)

lemma scholStep_social_only (cfg : ScholCfg) (rem : Nat) (s : StudentIn)
    (hg : s.grades = [some 5]) (hrem : cfg.socialAmt ≤ rem)
    (hwin : s.socialDraw < cfg.socialProb) (hacad : rem - cfg.socialAmt < cfg.academicAmt) :
    (scholStep cfg rem s).schol = cfg.socialAmt ∧
      (scholStep cfg rem s).rem = rem - cfg.socialAmt := by
  have hcond : cfg.socialAmt ≤ rem ∧ s.socialDraw < cfg.socialProb := ⟨hrem, hwin⟩
  by_cases hA : s.academicDraw < cfg.academicProb <;>
    simp [scholStep, hg, hcond, hA, Nat.not_le.mpr hacad]

lemma scholStep_insufficient (cfg : ScholCfg) (rem : Nat) (s : StudentIn)
    (hg : s.grades = [some 5]) (hrem : rem < cfg.socialAmt) :
    scholStep cfg rem s = ⟨0, rem, ScholOutcome.insufficientSocial⟩ := by
  have hcond : ¬(cfg.socialAmt ≤ rem ∧ s.socialDraw < cfg.socialProb) := fun hc =>
    absurd hc.1 (Nat.not_le.mpr hrem)
  simp [scholStep, hg, hcond, hrem]

/-- The claim's scenario configuration: fund 5000, social scholarship
(2000, probability 1), CONFIG's academic scholarship (11500, 0.3). -/
def c3cfg : ScholCfg := ⟨2000, 1, 11500, 0.3⟩

/-- Ten eligible students in ascending id order (the `ORDER BY id` query
result), each with a clean current-semester grade sheet and its own
random draws. -/
def c3students (dS dA : Nat → ℚ) : List StudentIn :=
  [⟨200000, [some 5], dS 0, dA 0⟩, ⟨200001, [some 5], dS 1, dA 1⟩,
   ⟨200002, [some 5], dS 2, dA 2⟩, ⟨200003, [some 5], dS 3, dA 3⟩,
   ⟨200004, [some 5], dS 4, dA 4⟩, ⟨200005, [some 5], dS 5, dA 5⟩,
   ⟨200006, [some 5], dS 6, dA 6⟩, ⟨200007, [some 5], dS 7, dA 7⟩,
   ⟨200008, [some 5], dS 8, dA 8⟩, ⟨200009, [some 5], dS 9, dA 9⟩]

/-- C3: with a fund of 5000, a social amount of 2000 at probability 1
(every draw `dS i < 1` wins) and 10 eligible students processed in
ascending id order, exactly the first two students are awarded the
social amount and the remaining eight get scholarship 0 with the
insufficient-funds reason, whatever the academic draws are. -/
theorem c3_first_come_first_served (dS dA : Nat → ℚ) (h : ∀ i, dS i < 1) :
    (scholAlloc c3cfg 5000 (c3students dS dA)).map (fun x => (x.1, x.2.1)) =
      [(200000, 2000), (200001, 2000), (200002, 0), (200003, 0), (200004, 0),
       (200005, 0), (200006, 0), (200007, 0), (200008, 0), (200009, 0)] ∧
    ∀ x ∈ (scholAlloc c3cfg 5000 (c3students dS dA)).drop 2,
      x.2.2 = ScholOutcome.insufficientSocial := by
  have a0 : (scholStep c3cfg 5000 ⟨200000, [some 5], dS 0, dA 0⟩).schol = 2000 := by
    have hh := (scholStep_social_only c3cfg 5000 ⟨200000, [some 5], dS 0, dA 0⟩ rfl
      (by norm_num [c3cfg]) (by simpa [c3cfg] using h 0) (by norm_num [c3cfg])).1
    simpa [c3cfg] using hh
  have r0 : (scholStep c3cfg 5000 ⟨200000, [some 5], dS 0, dA 0⟩).rem = 3000 := by
    have hh := (scholStep_social_only c3cfg 5000 ⟨200000, [some 5], dS 0, dA 0⟩ rfl
      (by norm_num [c3cfg]) (by simpa [c3cfg] using h 0) (by norm_num [c3cfg])).2
    simpa [c3cfg] using hh
  have a1 : (scholStep c3cfg 3000 ⟨200001, [some 5], dS 1, dA 1⟩).schol = 2000 := by
    have hh := (scholStep_social_only c3cfg 3000 ⟨200001, [some 5], dS 1, dA 1⟩ rfl
      (by norm_num [c3cfg]) (by simpa [c3cfg] using h 1) (by norm_num [c3cfg])).1
    simpa [c3cfg] using hh
  have r1 : (scholStep c3cfg 3000 ⟨200001, [some 5], dS 1, dA 1⟩).rem = 1000 := by
    have hh := (scholStep_social_only c3cfg 3000 ⟨200001, [some 5], dS 1, dA 1⟩ rfl
      (by norm_num [c3cfg]) (by simpa [c3cfg] using h 1) (by norm_num [c3cfg])).2
    simpa [c3cfg] using hh
  have e2 := scholStep_insufficient c3cfg 1000 ⟨200002, [some 5], dS 2, dA 2⟩ rfl
    (by norm_num [c3cfg])
  have e3 := scholStep_insufficient c3cfg 1000 ⟨200003, [some 5], dS 3, dA 3⟩ rfl
    (by norm_num [c3cfg])
  have e4 := scholStep_insufficient c3cfg 1000 ⟨200004, [some 5], dS 4, dA 4⟩ rfl
    (by norm_num [c3cfg])
  have e5 := scholStep_insufficient c3cfg 1000 ⟨200005, [some 5], dS 5, dA 5⟩ rfl
    (by norm_num [c3cfg])
  have e6 := scholStep_insufficient c3cfg 1000 ⟨200006, [some 5], dS 6, dA 6⟩ rfl
    (by norm_num [c3cfg])
  have e7 := scholStep_insufficient c3cfg 1000 ⟨200007, [some 5], dS 7, dA 7⟩ rfl
    (by norm_num [c3cfg])
  have e8 := scholStep_insufficient c3cfg 1000 ⟨200008, [some 5], dS 8, dA 8⟩ rfl
    (by norm_num [c3cfg])
  have e9 := scholStep_insufficient c3cfg 1000 ⟨200009, [some 5], dS 9, dA 9⟩ rfl
    (by norm_num [c3cfg])
  refine ⟨?_, ?_⟩ <;>
    simp [c3students, scholAlloc, a0, a1, r0, r1, e2, e3, e4, e5, e6, e7, e8, e9]

theorem c3_witness :
    (scholAlloc c3cfg 5000 (c3students (fun _ => 0) (fun _ => 0))).map
        (fun x => (x.1, x.2.1)) =
      [(200000, 2000), (200001, 2000), (200002, 0), (200003, 0), (200004, 0),
       (200005, 0), (200006, 0), (200007, 0), (200008, 0), (200009, 0)] ∧
    ∀ x ∈ (scholAlloc c3cfg 5000 (c3students (fun _ => 0) (fun _ => 0))).drop 2,
      x.2.2 = ScholOutcome.insufficientSocial :=
  c3_first_come_first_served (fun _ => 0) (fun _ => 0) (fun _ => by norm_num)
